import Mathlib

/-!
# SecretSantaOrg — verification of the spec against the server code

Shallow embedding of the Secret Santa server (`server/storage.ts`,
`server/routes.ts`, second revision of the route handlers, which is the
revision carrying the lifecycle checks described by the spec).

The database tables become Lean lists, the Drizzle queries become list
operations, and each Express handler becomes a function
`Storage → Except Err Storage` where an `Except.error` result models the
handler returning a 4xx/5xx response without having mutated the database.
`Math.floor(Math.random() * i)` is modelled by an oracle `rand : Nat → Nat`
together with the validity hypothesis `0 < i → rand i < i`.
-/

namespace SecretSantaOrg

/-- Row of the `users` table (`shared/schema.ts`): serial id, unique username,
password (hashing is external, the content is irrelevant here), role
("admin" or "participant"), wishlist_completed flag. -/
structure User where
  id : Nat
  username : String
  password : String
  role : String
  wishlistCompleted : Bool
deriving Repr, DecidableEq

/-- Row of the `wishlist_items` table: owning user id and three optional
free-text items (`NULL` is `none`). -/
structure Wishlist where
  userId : Nat
  item1 : Option String
  item2 : Option String
  item3 : Option String
deriving Repr, DecidableEq

/-- Row of the `assignments` table. -/
structure Assignment where
  giverId : Nat
  receiverId : Nat
deriving Repr, DecidableEq

/-- The singleton `app_state` row. -/
structure AppState where
  shuffleCompleted : Bool
deriving Repr, DecidableEq

/-- The whole database state. -/
structure Storage where
  users : List User
  wishlists : List Wishlist
  assignments : List Assignment
  appState : AppState
deriving Repr, DecidableEq

/-- Spec §7 error taxonomy; `internal` is the generic 500 produced when a
storage-layer exception is caught by a handler. -/
inductive ErrKind
  | validation
  | conflict
  | invalidState
  | notFound
  | internal
deriving Repr, DecidableEq

/-- A structured error: kind plus the handler's human-readable message. -/
structure Err where
  kind : ErrKind
  message : String
deriving Repr, DecidableEq

/-- `storage.getUser`: first (only) row with the given id. -/
def getUser (s : Storage) (id : Nat) : Option User :=
  s.users.find? (fun u => u.id == id)

/-- `storage.getUserByUsername`. -/
def getUserByUsername (s : Storage) (username : String) : Option User :=
  s.users.find? (fun u => u.username == username)

/-- `storage.getAllParticipants`: all users with role "participant"
(the admin never appears in the shuffle roster). -/
def getAllParticipants (s : Storage) : List User :=
  s.users.filter (fun u => u.role == "participant")

/-- Deleting a user row; the schema's `onDelete: "cascade"` removes the
user's wishlist row and any assignment rows referencing the user. -/
def removeUserCascade (s : Storage) (id : Nat) : Storage :=
  { s with
    users := s.users.filter (fun u => u.id != id),
    wishlists := s.wishlists.filter (fun w => w.userId != id),
    assignments :=
      s.assignments.filter (fun a => a.giverId != id && a.receiverId != id) }

/-- `storage.deleteUser`: refuses to delete an admin-role user (the thrown
`Error` surfaces as a generic 500 in the route handler), otherwise deletes
the row (deleting an unknown id matches nothing and succeeds). -/
def deleteUserStorage (s : Storage) (id : Nat) : Except Err Storage :=
  match getUser s id with
  | some u =>
    if u.role == "admin" then
      .error ⟨.internal, "Admin user cannot be deleted."⟩
    else
      .ok (removeUserCascade s id)
  | none => .ok (removeUserCascade s id)

/-- `storage.updateUserWishlistStatus`. -/
def updateUserWishlistStatus (s : Storage) (id : Nat) (completed : Bool) :
    Storage :=
  { s with
    users := s.users.map (fun u =>
      if u.id == id then { u with wishlistCompleted := completed } else u) }

/-- Drizzle's update builder drops `undefined` entries from the SET clause:
a column is written only when a defined value was passed, otherwise the
row's old value survives. -/
def mergeCol (new old : Option String) : Option String :=
  match new with
  | some v => some v
  | none => old

/-- `storage.getWishlistByUserId`: first row owned by the user. -/
def getWishlistByUserId (s : Storage) (userId : Nat) : Option Wishlist :=
  s.wishlists.find? (fun w => w.userId == userId)

/-- `storage.createOrUpdateWishlist`: when a row exists, run an UPDATE whose
SET clause contains only the defined items (Drizzle skips `undefined`
values, so omitted items keep their old column values — a per-field merge);
otherwise INSERT a fresh row whose omitted columns default to NULL. -/
def createOrUpdateWishlist (s : Storage) (userId : Nat)
    (i1 i2 i3 : Option String) : Storage :=
  if (s.wishlists.find? (fun w => w.userId == userId)).isSome then
    { s with
      wishlists := s.wishlists.map (fun w =>
        if w.userId == userId then
          ⟨userId, mergeCol i1 w.item1, mergeCol i2 w.item2,
            mergeCol i3 w.item3⟩
        else w) }
  else
    { s with wishlists := s.wishlists ++ [⟨userId, i1, i2, i3⟩] }

/-- JS `String.prototype.trim`: drop leading and trailing whitespace
(modelled structurally over the character list so that it computes). -/
def jsTrim (s : String) : String :=
  ⟨((s.data.dropWhile Char.isWhitespace).reverse.dropWhile
      Char.isWhitespace).reverse⟩

/-- `item?.trim() || ""` from the wishlist handler. -/
def trimOpt (x : Option String) : String :=
  (x.map jsTrim).getD ""

/-- `trimmedItem || undefined` from the wishlist handler. -/
def optOfStr (x : String) : Option String :=
  if x = "" then none else some x

/-- POST `/api/my-wishlist` (second revision): trim the three items, reject
when all three are empty after trimming, otherwise upsert the row and mark
the user's wishlist as completed. -/
def saveWishlist (s : Storage) (userId : Nat)
    (item1 item2 item3 : Option String) : Except Err Storage :=
  let t1 := trimOpt item1
  let t2 := trimOpt item2
  let t3 := trimOpt item3
  if t1 = "" && t2 = "" && t3 = "" then
    .error ⟨.validation, "At least one wishlist item is required"⟩
  else
    .ok (updateUserWishlistStatus
      (createOrUpdateWishlist s userId (optOfStr t1) (optOfStr t2) (optOfStr t3))
      userId true)

/-- POST `/api/participants` (second revision): length checks, duplicate
username check, then the frozen-roster check, then `storage.createUser`
(which forces role "participant"; `newId` models the serial primary key). -/
def createParticipant (s : Storage) (newId : Nat) (username password : String) :
    Except Err Storage :=
  if username.length < 3 then
    .error ⟨.validation, "Username must be at least 3 characters"⟩
  else if password.length < 4 then
    .error ⟨.validation, "Password must be at least 4 characters"⟩
  else if (getUserByUsername s username).isSome then
    .error ⟨.conflict, "Username already exists"⟩
  else if s.appState.shuffleCompleted then
    .error ⟨.invalidState, "Cannot add participants after shuffle. Reset first."⟩
  else
    .ok { s with
          users := s.users ++ [⟨newId, username, password, "participant", false⟩] }

/-- DELETE `/api/participants/:id` (second revision): frozen-roster check,
self-deletion check (the requester is the authenticated admin), then
`storage.deleteUser`. -/
def deleteParticipant (s : Storage) (requesterId id : Nat) :
    Except Err Storage :=
  if s.appState.shuffleCompleted then
    .error ⟨.invalidState, "Cannot delete participants after shuffle. Reset first."⟩
  else if id == requesterId then
    .error ⟨.validation, "Cannot delete yourself"⟩
  else
    deleteUserStorage s id

/-- One JS array-destructuring swap
`[receivers[i], receivers[j]] = [receivers[j], receivers[i]]`. -/
def swapL (l : List Nat) (i j : Nat) : List Nat :=
  (l.set i (l.getD j 0)).set j (l.getD i 0)

/-- The Sattolo loop `for (let i = n-1; i > 0; i--)`: argument `i` is the
loop counter, each iteration swaps positions `i` and `rand i` and steps down. -/
def sattoloAux (rand : Nat → Nat) : Nat → List Nat → List Nat
  | 0, l => l
  | i + 1, l => sattoloAux rand i (swapL l (i + 1) (rand (i + 1)))

/-- The full loop applied to `receivers = [...ids]`. -/
def sattolo (rand : Nat → Nat) (ids : List Nat) : List Nat :=
  sattoloAux rand (ids.length - 1) ids

/-- POST `/api/shuffle` (second revision): already-shuffled check, roster-size
check, completion check, then delete all assignments, run Sattolo's loop over
the roster ids, insert giver→receiver rows, and set `shuffleCompleted`. -/
def shuffle (rand : Nat → Nat) (s : Storage) : Except Err Storage :=
  if s.appState.shuffleCompleted then
    .error ⟨.invalidState,
      "Shuffle has already been completed. Reset first to shuffle again."⟩
  else
    let participants := getAllParticipants s
    if participants.length < 3 then
      .error ⟨.invalidState, "Need at least 3 participants to shuffle"⟩
    else if !(participants.all (fun p => p.wishlistCompleted)) then
      .error ⟨.invalidState, "Not all participants have completed their wishlists"⟩
    else
      let ids := participants.map (fun p => p.id)
      let receivers := sattolo rand ids
      .ok { s with
            assignments := (ids.zip receivers).map (fun pr => ⟨pr.1, pr.2⟩),
            appState := ⟨true⟩ }

/-- POST `/api/reset`: delete all assignments, clear the flag. -/
def reset (s : Storage) : Storage :=
  { s with assignments := [], appState := ⟨false⟩ }

/-- The database state a request leaves behind: an error response leaves the
state unchanged (every handler checks its preconditions before mutating). -/
def runExcept (s : Storage) (r : Except Err Storage) : Storage :=
  match r with
  | .ok s' => s'
  | .error _ => s

/-- GET `/api/my-assignment` reduced to the receiver id: the receiver assigned
to a giver, `0` when no row exists. -/
def followAssign (as : List Assignment) (g : Nat) : Nat :=
  ((as.find? (fun a => a.giverId == g)).map (fun a => a.receiverId)).getD 0

/-- The primitive database writes the shuffle handler issues after its
precondition checks, in order; each is a separate awaited query. -/
inductive DbOp
  | delAllAssignments
  | insertAssignment (giverId receiverId : Nat)
  | setCompleted (b : Bool)
deriving Repr, DecidableEq

/-- Effect of one primitive write. -/
def applyDbOp (s : Storage) : DbOp → Storage
  | .delAllAssignments => { s with assignments := [] }
  | .insertAssignment g r => { s with assignments := s.assignments ++ [⟨g, r⟩] }
  | .setCompleted b => { s with appState := ⟨b⟩ }

/-- Running a list of primitive writes; `runDbOps s (ops.take k)` is the
state visible after the first `k` of them (the state a concurrent reader or
a failure partway through can observe). -/
def runDbOps (s : Storage) (ops : List DbOp) : Storage :=
  ops.foldl applyDbOp s

/-- The write sequence of a shuffle whose precondition checks passed:
`deleteAllAssignments`, then one `createAssignment` per roster member, then
`setShuffleCompleted(true)`. -/
def shufflePersistOps (rand : Nat → Nat) (s : Storage) : List DbOp :=
  let ids := (getAllParticipants s).map (fun p => p.id)
  let receivers := sattolo rand ids
  .delAllAssignments ::
    ((ids.zip receivers).map (fun pr => .insertAssignment pr.1 pr.2) ++
      [.setCompleted true])

/-- The seeded admin account (`seedAdmin`). -/
def adminUser : User :=
  ⟨100, "admin", "admin123", "admin", false⟩

/-- Initial database: just the seeded admin, no assignments, state `Open`. -/
def initState : Storage :=
  { users := [adminUser], wishlists := [], assignments := [],
    appState := ⟨false⟩ }

/-- One observable operation of the server (successful mutating request);
failed requests leave the state unchanged and hence need no step. The
shuffle step records the validity of the random draws
(`Math.floor(Math.random() * i) < i`), and participant creation records the
serial primary key handing out a fresh id. -/
inductive Step : Storage → Storage → Prop
  | create {s s' : Storage} (newId : Nat) (u p : String) :
      (∀ x ∈ s.users, x.id ≠ newId) →
      createParticipant s newId u p = .ok s' → Step s s'
  | delete {s s' : Storage} (rid id : Nat) :
      deleteParticipant s rid id = .ok s' → Step s s'
  | save {s s' : Storage} (uid : Nat) (i1 i2 i3 : Option String) :
      saveWishlist s uid i1 i2 i3 = .ok s' → Step s s'
  | doShuffle {s s' : Storage} (rand : Nat → Nat) :
      (∀ i, 0 < i → rand i < i) →
      shuffle rand s = .ok s' → Step s s'
  | doReset (s : Storage) : Step s (reset s)

/-- States reachable from the seeded database. -/
def Reachable (s : Storage) : Prop :=
  Relation.ReflTransGen Step initState s

/-- The spec §3 AppState invariant: the flag is set exactly when the
assignment set is non-empty and covers the non-admin roster. -/
def Inv (s : Storage) : Prop :=
  s.appState.shuffleCompleted = true ↔
    (s.assignments ≠ [] ∧
      s.assignments.length = (getAllParticipants s).length)

/-- Strengthened reachability invariant: in the `Open` state the assignment
table is empty; in the `Shuffled` state it covers the roster exactly. -/
def StrongInv (s : Storage) : Prop :=
  (s.appState.shuffleCompleted = false → s.assignments = []) ∧
  (s.appState.shuffleCompleted = true →
    s.assignments ≠ [] ∧
    s.assignments.length = (getAllParticipants s).length)

/-- `Math.floor(Math.random() * i)` always lands in `[0, i-1]` for `i ≥ 1`. -/
def ValidRand (rand : Nat → Nat) : Prop :=
  ∀ i, 0 < i → rand i < i

/-- Verification scaffolding: the permutation of array positions that the
Sattolo loop with top index `m` performs (each iteration composes one
transposition of positions). -/
def sigmaAux (rand : Nat → Nat) : Nat → Equiv.Perm Nat
  | 0 => 1
  | i + 1 => Equiv.swap (i + 1) (rand (i + 1)) * sigmaAux rand i

/-- Verification scaffolding: the list whose `k`-th entry is `ids[π k]`. -/
def permApply (π : Equiv.Perm Nat) (ids : List Nat) : List Nat :=
  (List.range ids.length).map (fun k => ids.getD (π k) 0)

/-- A fixed random oracle (`Math.random()` always tiny): every draw is 0. -/
def rand0 : Nat → Nat := fun _ => 0

/-- Concrete database: the admin plus three participants with completed
wishlists, state `Open`. -/
def threeRoster : Storage :=
  { users := [adminUser,
      ⟨1, "alice", "pw1", "participant", true⟩,
      ⟨2, "bob", "pw2", "participant", true⟩,
      ⟨3, "carol", "pw3", "participant", true⟩],
    wishlists := [⟨1, some "a", none, none⟩, ⟨2, some "b", none, none⟩,
      ⟨3, some "c", none, none⟩],
    assignments := [], appState := ⟨false⟩ }

/-- `threeRoster` after a successful shuffle drawn with `rand0`. -/
def shuffled3 : Storage :=
  { threeRoster with
    assignments := [⟨1, 2⟩, ⟨2, 3⟩, ⟨3, 1⟩],
    appState := ⟨true⟩ }

/-- `threeRoster` with participant 1 holding a full three-item entry. -/
def c8Three : Storage :=
  { threeRoster with
    wishlists := [⟨1, some "a", some "b", some "c"⟩, ⟨2, some "b", none, none⟩,
      ⟨3, some "c", none, none⟩] }

/-- `c8Three` after participant 1 resaves only `item1 = "x"`: the update's
SET clause carries just `item_1`, so the old `item2`/`item3` survive. -/
def c8Merged : Storage :=
  { threeRoster with
    wishlists := [⟨1, some "x", some "b", some "c"⟩, ⟨2, some "b", none, none⟩,
      ⟨3, some "c", none, none⟩] }

deriving instance DecidableEq for Except

section SattoloLemmas

variable (rand : Nat → Nat)

theorem length_swapL (l : List Nat) (i j : Nat) :
    (swapL l i j).length = l.length := by
  simp [swapL]

theorem length_sattoloAux (i : Nat) (l : List Nat) :
    (sattoloAux rand i l).length = l.length := by
  induction i generalizing l with
  | zero => rfl
  | succ n ih => rw [sattoloAux, ih, length_swapL]

/-- `receivers` keeps the roster's length. -/
theorem length_sattolo (ids : List Nat) :
    (sattolo rand ids).length = ids.length :=
  length_sattoloAux rand _ ids

theorem length_permApply (π : Equiv.Perm Nat) (ids : List Nat) :
    (permApply π ids).length = ids.length := by
  simp [permApply]

theorem getD_permApply (π : Equiv.Perm Nat) (ids : List Nat) (k : Nat)
    (hk : k < ids.length) :
    (permApply π ids).getD k 0 = ids.getD (π k) 0 := by
  rw [permApply, List.getD_eq_getElem _ _ (by simpa using hk)]
  simp

theorem map_getD_range (l : List Nat) :
    (List.range l.length).map (fun k => l.getD k 0) = l := by
  induction l with
  | nil => simp
  | cons a t ih =>
    rw [List.length_cons, List.range_succ_eq_map, List.map_cons, List.map_map]
    have h2 : (List.range t.length).map ((fun k => (a :: t).getD k 0) ∘ Nat.succ)
        = t := by
      rw [show (List.range t.length).map ((fun k => (a :: t).getD k 0) ∘ Nat.succ)
          = (List.range t.length).map (fun k => t.getD k 0) from
        List.map_congr_left (fun x _ => by simp [Function.comp])]
      exact ih
    rw [h2]
    simp

theorem permApply_one (ids : List Nat) : permApply 1 ids = ids := by
  simpa [permApply] using map_getD_range ids

theorem getD_set (l : List Nat) (m a k : Nat) (hk : k < l.length) :
    (l.set m a).getD k 0 = if m = k then a else l.getD k 0 := by
  rw [List.getD_eq_getElem _ 0 (by simpa using hk), List.getElem_set]
  split
  · rfl
  · rw [List.getD_eq_getElem _ 0 hk]

theorem getD_swapL (l : List Nat) (i j k : Nat) (hk : k < l.length) :
    (swapL l i j).getD k 0 =
      if j = k then l.getD i 0 else if i = k then l.getD j 0 else l.getD k 0 := by
  rw [swapL, getD_set _ _ _ _ (by simpa using hk), getD_set _ _ _ _ hk]

theorem swapL_permApply (π : Equiv.Perm Nat) (ids : List Nat) (i j : Nat)
    (hi : i < ids.length) (hj : j < ids.length) :
    swapL (permApply π ids) i j = permApply (π * Equiv.swap i j) ids := by
  apply List.ext_getElem
  · simp [swapL, permApply]
  · intro k hk1 hk2
    have hk : k < ids.length := by
      simpa [length_swapL, length_permApply] using hk1
    rw [← List.getD_eq_getElem _ 0 hk1, ← List.getD_eq_getElem _ 0 hk2,
      getD_permApply _ _ _ hk,
      getD_swapL _ _ _ _ (by simpa [length_permApply] using hk)]
    rcases eq_or_ne j k with rfl | hjk
    · rw [if_pos rfl, getD_permApply _ _ _ hi]
      have : (π * Equiv.swap i j) j = π i := by
        simp [Equiv.Perm.mul_apply, Equiv.swap_apply_right]
      rw [this]
    · rw [if_neg hjk]
      rcases eq_or_ne i k with rfl | hik
      · rw [if_pos rfl, getD_permApply _ _ _ hj]
        have : (π * Equiv.swap i j) i = π j := by
          simp [Equiv.Perm.mul_apply, Equiv.swap_apply_left]
        rw [this]
      · rw [if_neg hik, getD_permApply _ _ _ hk]
        have : (π * Equiv.swap i j) k = π k := by
          simp only [Equiv.Perm.mul_apply]
          rw [Equiv.swap_apply_of_ne_of_ne (Ne.symm hik) (Ne.symm hjk)]
        rw [this]

end SattoloLemmas

section SigmaLemmas

variable {rand : Nat → Nat}

/-- Positions above the loop counter are never touched. -/
theorem sigmaAux_fix (hr : ValidRand rand) (m k : Nat) (hk : m < k) :
    sigmaAux rand m k = k := by
  induction m with
  | zero => rfl
  | succ n ih =>
    have hj : rand (n + 1) < n + 1 := hr (n + 1) (Nat.succ_pos n)
    rw [sigmaAux, Equiv.Perm.mul_apply, ih (Nat.lt_of_succ_lt hk)]
    exact Equiv.swap_apply_of_ne_of_ne (Nat.ne_of_gt hk)
      (Nat.ne_of_gt (hj.trans hk))

/-- The loop permutes the positions `0..m` among themselves. -/
theorem sigmaAux_le (hr : ValidRand rand) (m k : Nat) (hk : k ≤ m) :
    sigmaAux rand m k ≤ m := by
  by_contra hgt
  push_neg at hgt
  have hfix : sigmaAux rand m (sigmaAux rand m k) = sigmaAux rand m k :=
    sigmaAux_fix hr m _ hgt
  have := (sigmaAux rand m).injective hfix
  omega

/-- No position keeps its entry: Sattolo's loop has no fixed point below the
starting counter (provided at least one iteration runs, `1 ≤ m`). -/
theorem sigmaAux_ne (hr : ValidRand rand) (m k : Nat) (hm : 1 ≤ m) (hk : k ≤ m) :
    sigmaAux rand m k ≠ k := by
  induction m with
  | zero => omega
  | succ n ih =>
    have hj : rand (n + 1) < n + 1 := hr (n + 1) (Nat.succ_pos n)
    rw [sigmaAux, Equiv.Perm.mul_apply]
    rcases eq_or_ne k (n + 1) with rfl | hkn
    · rw [sigmaAux_fix hr n (n + 1) (Nat.lt_succ_self n)]
      rw [Equiv.swap_apply_left]
      omega
    · have hkle : k ≤ n := by omega
      rcases Nat.eq_zero_or_pos n with rfl | hn
      · -- single iteration with counter 1: rand 1 = 0, swap 1 0 sends 0 to 1
        have hk0 : k = 0 := by omega
        have hr1 : rand 1 = 0 := by
          have := hr 1 Nat.one_pos
          omega
        subst hk0
        rw [show sigmaAux rand 0 0 = 0 from rfl, hr1, Equiv.swap_apply_right]
        omega
      · have hne : sigmaAux rand n k ≠ k := ih hn hkle
        have hle : sigmaAux rand n k ≤ n := sigmaAux_le hr n k hkle
        rcases eq_or_ne (sigmaAux rand n k) (rand (n + 1)) with hv | hv
        · rw [hv, Equiv.swap_apply_right]
          omega
        · rw [Equiv.swap_apply_of_ne_of_ne (by omega) hv]
          exact hne

/-- The forward orbit of position 0 stays below the counter. -/
theorem sigmaAux_iterate_le (hr : ValidRand rand) (m t : Nat) :
    (sigmaAux rand m)^[t] 0 ≤ m := by
  induction t with
  | zero => exact Nat.zero_le m
  | succ n ih =>
    rw [Function.iterate_succ_apply']
    exact sigmaAux_le hr m _ ih

/-- The orbit of 0 is periodic. -/
theorem sigmaAux_period (hr : ValidRand rand) (m : Nat) :
    ∃ p, 0 < p ∧ (sigmaAux rand m)^[p] 0 = 0 := by
  have hmaps : ∀ a ∈ Finset.range (m + 2),
      (fun t => (sigmaAux rand m)^[t] 0) a ∈ Finset.range (m + 1) := by
    intro a _
    simp only [Finset.mem_range]
    exact Nat.lt_succ_of_le (sigmaAux_iterate_le hr m a)
  obtain ⟨x, -, y, -, hxy, heq⟩ :=
    Finset.exists_ne_map_eq_of_card_lt_of_maps_to
      (by simp) hmaps
  rcases Nat.lt_or_ge x y with hlt | hge
  · refine ⟨y - x, by omega, ?_⟩
    have : (sigmaAux rand m)^[x] ((sigmaAux rand m)^[y - x] 0)
        = (sigmaAux rand m)^[x] 0 := by
      rw [← Function.iterate_add_apply, Nat.add_sub_cancel' (Nat.le_of_lt hlt)]
      exact heq.symm
    exact ((sigmaAux rand m).injective.iterate x) this
  · have hlt : y < x := by omega
    refine ⟨x - y, by omega, ?_⟩
    have : (sigmaAux rand m)^[y] ((sigmaAux rand m)^[x - y] 0)
        = (sigmaAux rand m)^[y] 0 := by
      rw [← Function.iterate_add_apply, Nat.add_sub_cancel' (Nat.le_of_lt hlt)]
      exact heq
    exact ((sigmaAux rand m).injective.iterate y) this

/-- Sattolo's loop produces one cycle: every position `k ≤ m` lies on the
orbit of position 0. -/
theorem sigmaAux_cycle (hr : ValidRand rand) (m : Nat) :
    ∀ k, k ≤ m → ∃ t, (sigmaAux rand m)^[t] 0 = k := by
  induction m with
  | zero =>
    intro k hk
    have hk0 : k = 0 := Nat.le_zero.mp hk
    subst hk0
    exact ⟨0, rfl⟩
  | succ n ih =>
    have hj : rand (n + 1) < n + 1 := hr (n + 1) (Nat.succ_pos n)
    -- every point of the old orbit is still reachable in the extended loop
    have stepA : ∀ t, ∃ s,
        (sigmaAux rand (n + 1))^[s] 0 = (sigmaAux rand n)^[t] 0 := by
      intro t
      induction t with
      | zero => exact ⟨0, rfl⟩
      | succ t iht =>
        obtain ⟨s, hs⟩ := iht
        have hb : (sigmaAux rand n)^[t] 0 ≤ n := sigmaAux_iterate_le hr n t
        have hσb : sigmaAux rand n ((sigmaAux rand n)^[t] 0) ≤ n :=
          sigmaAux_le hr n _ hb
        rcases eq_or_ne (sigmaAux rand n ((sigmaAux rand n)^[t] 0))
            (rand (n + 1)) with hc | hc
        · refine ⟨s + 2, ?_⟩
          have h1 : (sigmaAux rand (n + 1))^[s + 1] 0 = n + 1 := by
            rw [Function.iterate_succ_apply', hs, sigmaAux,
              Equiv.Perm.mul_apply, hc, Equiv.swap_apply_right]
          rw [Function.iterate_succ_apply', h1, sigmaAux,
            Equiv.Perm.mul_apply, sigmaAux_fix hr n (n + 1) (Nat.lt_succ_self n),
            Equiv.swap_apply_left, Function.iterate_succ_apply', ← hc]
        · refine ⟨s + 1, ?_⟩
          rw [Function.iterate_succ_apply', hs, sigmaAux, Equiv.Perm.mul_apply,
            Equiv.swap_apply_of_ne_of_ne (by omega) hc,
            Function.iterate_succ_apply']
    intro k hk
    rcases Nat.lt_or_ge k (n + 1) with hkn | hkn
    · obtain ⟨t, ht⟩ := ih k (by omega)
      obtain ⟨s, hs⟩ := stepA t
      exact ⟨s, hs.trans ht⟩
    · have hk1 : k = n + 1 := by omega
      subst hk1
      -- the new position is entered from the old orbit's preimage of j
      obtain ⟨t0, ht0⟩ := ih (rand (n + 1)) (by omega)
      obtain ⟨p, hp, hper⟩ := sigmaAux_period hr n
      have ht1 : ∃ t, 0 < t ∧ (sigmaAux rand n)^[t] 0 = rand (n + 1) := by
        rcases Nat.eq_zero_or_pos t0 with rfl | hpos
        · have h0 : rand (n + 1) = 0 := by simpa using ht0.symm
          exact ⟨p, hp, by rw [hper, h0]⟩
        · exact ⟨t0, hpos, ht0⟩
      obtain ⟨t, htpos, ht⟩ := ht1
      obtain ⟨s, hs⟩ := stepA (t - 1)
      refine ⟨s + 1, ?_⟩
      have hb : (sigmaAux rand n)^[t - 1] 0 ≤ n := sigmaAux_iterate_le hr n _
      have hσ : sigmaAux rand n ((sigmaAux rand n)^[t - 1] 0) = rand (n + 1) := by
        have h1 := Function.iterate_succ_apply' (⇑(sigmaAux rand n)) (t - 1) 0
        rw [show (t - 1).succ = t by omega] at h1
        rw [← h1]
        exact ht
      rw [Function.iterate_succ_apply', hs, sigmaAux, Equiv.Perm.mul_apply,
        hσ, Equiv.swap_apply_right]

/-- Iterating a period multiple of times returns to 0. -/
theorem sigmaAux_period_mul (m p : Nat) (hper : (sigmaAux rand m)^[p] 0 = 0) :
    ∀ c, (sigmaAux rand m)^[c * p] 0 = 0 := by
  intro c
  induction c with
  | zero => simp
  | succ d ih =>
    rw [Nat.succ_mul, Function.iterate_add_apply, hper, ih]

/-- Single-cycle reachability from an arbitrary start: any position `a ≤ m`
reaches any position `b ≤ m` along the cycle. -/
theorem sigmaAux_reach (hr : ValidRand rand) (m a b : Nat) (ha : a ≤ m) (hb : b ≤ m) :
    ∃ t, (sigmaAux rand m)^[t] a = b := by
  obtain ⟨ta, hta⟩ := sigmaAux_cycle hr m a ha
  obtain ⟨tb, htb⟩ := sigmaAux_cycle hr m b hb
  obtain ⟨p, hp, hper⟩ := sigmaAux_period hr m
  refine ⟨tb + ta * p - ta, ?_⟩
  have hle : ta ≤ tb + ta * p := by
    have : ta ≤ ta * p := Nat.le_mul_of_pos_right ta hp
    omega
  rw [← hta, ← Function.iterate_add_apply,
    show tb + ta * p - ta + ta = tb + ta * p by omega,
    Function.iterate_add_apply, sigmaAux_period_mul m p hper ta, htb]

end SigmaLemmas

section SattoloSigma

variable {rand : Nat → Nat}

theorem sattoloAux_permApply (hr : ValidRand rand) (ids : List Nat) :
    ∀ i, i < ids.length → ∀ π : Equiv.Perm Nat,
      sattoloAux rand i (permApply π ids) =
        permApply (π * sigmaAux rand i) ids := by
  intro i
  induction i with
  | zero =>
    intro _ π
    simp [sattoloAux, sigmaAux]
  | succ n ih =>
    intro hi π
    have hj : rand (n + 1) < n + 1 := hr (n + 1) (Nat.succ_pos n)
    rw [sattoloAux,
      swapL_permApply π ids (n + 1) (rand (n + 1)) hi (hj.trans hi),
      ih (Nat.lt_of_succ_lt hi) (π * Equiv.swap (n + 1) (rand (n + 1))),
      mul_assoc, sigmaAux]

/-- The receivers array produced by the full loop is the input roster
rearranged along the loop's position permutation. -/
theorem sattolo_eq_permApply (hr : ValidRand rand) (ids : List Nat)
    (h0 : 0 < ids.length) :
    sattolo rand ids = permApply (sigmaAux rand (ids.length - 1)) ids := by
  have h1 : ids.length - 1 < ids.length := by omega
  have h2 : sattolo rand ids
      = sattoloAux rand (ids.length - 1) (permApply 1 ids) := by
    rw [permApply_one]
    rfl
  rw [h2, sattoloAux_permApply hr ids _ h1 1, one_mul]

theorem sattolo_getD (hr : ValidRand rand) (ids : List Nat) (k : Nat)
    (hk : k < ids.length) :
    (sattolo rand ids).getD k 0 =
      ids.getD (sigmaAux rand (ids.length - 1) k) 0 := by
  rw [sattolo_eq_permApply hr ids (by omega), getD_permApply _ _ _ hk]

/-- The receivers array is a permutation of the roster ids. -/
theorem sattolo_perm (hr : ValidRand rand) (ids : List Nat) :
    (sattolo rand ids).Perm ids := by
  rcases Nat.eq_zero_or_pos ids.length with h0 | h0
  · rw [List.length_eq_zero] at h0
    subst h0
    exact List.Perm.refl _
  · have hmap : ((List.range ids.length).map
        (fun k => sigmaAux rand (ids.length - 1) k)).Perm
        (List.range ids.length) := by
      apply List.perm_of_nodup_nodup_toFinset_eq
      · exact (List.nodup_range ids.length).map
          (sigmaAux rand (ids.length - 1)).injective
      · exact List.nodup_range ids.length
      · apply Finset.ext
        intro x
        simp only [List.mem_toFinset, List.mem_map, List.mem_range]
        constructor
        · rintro ⟨k, hk, rfl⟩
          have := sigmaAux_le hr (ids.length - 1) k (by omega)
          omega
        · intro hx
          refine ⟨(sigmaAux rand (ids.length - 1)).symm x, ?_,
            Equiv.apply_symm_apply _ x⟩
          by_contra hge
          push_neg at hge
          have hfix := sigmaAux_fix hr (ids.length - 1)
            ((sigmaAux rand (ids.length - 1)).symm x) (by omega)
          rw [Equiv.apply_symm_apply] at hfix
          omega
    have h2 : sattolo rand ids =
        ((List.range ids.length).map
          (fun k => sigmaAux rand (ids.length - 1) k)).map
          (fun k => ids.getD k 0) := by
      rw [sattolo_eq_permApply hr ids h0, permApply, List.map_map]
      rfl
    rw [h2]
    have h3 := hmap.map (fun k => ids.getD k 0)
    have h4 : (List.range ids.length).map (fun k => ids.getD k 0) = ids :=
      map_getD_range ids
    rw [h4] at h3
    exact h3

/-- No participant keeps their own id: position `k`'s receiver differs from
position `k`'s giver whenever the ids are distinct and `n ≥ 2`. -/
theorem sattolo_getD_ne (hr : ValidRand rand) (ids : List Nat)
    (hnd : ids.Nodup) (h2 : 2 ≤ ids.length) (k : Nat) (hk : k < ids.length) :
    (sattolo rand ids).getD k 0 ≠ ids.getD k 0 := by
  have hm : 1 ≤ ids.length - 1 := by omega
  have hσne : sigmaAux rand (ids.length - 1) k ≠ k :=
    sigmaAux_ne hr _ k hm (by omega)
  have hσlt : sigmaAux rand (ids.length - 1) k < ids.length := by
    have := sigmaAux_le hr (ids.length - 1) k (by omega)
    omega
  rw [sattolo_getD hr ids k hk]
  intro heq
  rw [List.getD_eq_getElem _ 0 hσlt, List.getD_eq_getElem _ 0 hk] at heq
  exact hσne ((List.Nodup.getElem_inj_iff hnd).mp heq)

end SattoloSigma

section HandlerLemmas

/-- The assignment rows a successful shuffle writes. -/
def shuffleRows (rand : Nat → Nat) (s : Storage) : List Assignment :=
  (((getAllParticipants s).map (fun p => p.id)).zip
    (sattolo rand ((getAllParticipants s).map (fun p => p.id)))).map
    (fun pr => ⟨pr.1, pr.2⟩)

theorem shuffle_eq_ok {rand : Nat → Nat} {s s' : Storage}
    (h : shuffle rand s = .ok s') :
    s.appState.shuffleCompleted = false ∧
    3 ≤ (getAllParticipants s).length ∧
    (∀ p ∈ getAllParticipants s, p.wishlistCompleted = true) ∧
    s' = { s with assignments := shuffleRows rand s, appState := ⟨true⟩ } := by
  by_cases h1 : s.appState.shuffleCompleted
  · simp [shuffle, h1] at h
  · by_cases h2 : (getAllParticipants s).length < 3
    · simp [shuffle, h1, h2] at h
    · by_cases h3 : (getAllParticipants s).all (fun p => p.wishlistCompleted)
      · refine ⟨by simpa using h1, by omega, ?_, ?_⟩
        · intro p hp
          exact List.all_eq_true.mp h3 p hp
        · simp only [shuffle, h1, if_false, Bool.false_eq_true] at h
          rw [if_neg h2, if_neg (by simp [h3])] at h
          simpa [shuffleRows] using h.symm
      · simp [shuffle, h1, h2, h3] at h

theorem shuffle_ok_of {rand : Nat → Nat} {s : Storage}
    (hc : s.appState.shuffleCompleted = false)
    (hn : 3 ≤ (getAllParticipants s).length)
    (hw : ∀ p ∈ getAllParticipants s, p.wishlistCompleted = true) :
    shuffle rand s =
      .ok { s with assignments := shuffleRows rand s, appState := ⟨true⟩ } := by
  have h3 : (getAllParticipants s).all (fun p => p.wishlistCompleted) = true :=
    List.all_eq_true.mpr hw
  simp only [shuffle, hc, Bool.false_eq_true, if_false]
  rw [if_neg (by omega), if_neg (by simp [h3])]
  simp [shuffleRows]

end HandlerLemmas

section Claim1

/-- Claim C1: for every roster of non-admin participants of size `n ≥ 3` with
all wishlists completed (both facts recorded by the successful run), a
successful `shuffle()` produces exactly `n` assignment rows, every roster id
appears exactly once as `giverId` and exactly once as `receiverId`, and no
row has `giverId = receiverId`. -/
theorem c1_shuffle_derangement (rand : Nat → Nat) (s s' : Storage)
    (hr : ValidRand rand)
    (hnd : ((getAllParticipants s).map (fun p => p.id)).Nodup)
    (hok : shuffle rand s = .ok s') :
    s'.assignments.length = (getAllParticipants s).length ∧
    (∀ x ∈ (getAllParticipants s).map (fun p => p.id),
      (s'.assignments.map (fun a => a.giverId)).count x = 1 ∧
      (s'.assignments.map (fun a => a.receiverId)).count x = 1) ∧
    (∀ a ∈ s'.assignments, a.giverId ≠ a.receiverId) := by
  obtain ⟨hc, hn, hw, rfl⟩ := shuffle_eq_ok hok
  have hlenids : ((getAllParticipants s).map (fun p => p.id)).length
      = (getAllParticipants s).length := List.length_map _ _
  have hlensat : (sattolo rand ((getAllParticipants s).map (fun p => p.id))).length
      = ((getAllParticipants s).map (fun p => p.id)).length :=
    length_sattolo rand _
  have hrowslen : (shuffleRows rand s).length = (getAllParticipants s).length := by
    simp [shuffleRows, List.length_zip, hlensat, hlenids]
  have hgivers : (shuffleRows rand s).map (fun a => a.giverId)
      = (getAllParticipants s).map (fun p => p.id) := by
    rw [shuffleRows, List.map_map]
    exact List.map_fst_zip _ _ (le_of_eq hlensat.symm)
  have hreceivers : (shuffleRows rand s).map (fun a => a.receiverId)
      = sattolo rand ((getAllParticipants s).map (fun p => p.id)) := by
    rw [shuffleRows, List.map_map]
    exact List.map_snd_zip _ _ (le_of_eq hlensat)
  refine ⟨hrowslen, ?_, ?_⟩
  · intro x hx
    constructor
    · rw [hgivers]
      exact List.count_eq_one_of_mem hnd hx
    · rw [hreceivers, (sattolo_perm hr _).count_eq]
      exact List.count_eq_one_of_mem hnd hx
  · intro a ha
    obtain ⟨k, hklen, hEq⟩ := List.mem_iff_getElem.mp ha
    have hk : k < ((getAllParticipants s).map (fun p => p.id)).length := by
      rw [hlenids]
      exact hrowslen ▸ hklen
    have hkz : k < (((getAllParticipants s).map (fun p => p.id)).zip
        (sattolo rand ((getAllParticipants s).map (fun p => p.id)))).length := by
      simp [List.length_zip, hlensat]
      omega
    have hval : a = ⟨((getAllParticipants s).map (fun p => p.id)).getD k 0,
        (sattolo rand ((getAllParticipants s).map (fun p => p.id))).getD k 0⟩ := by
      rw [← hEq]
      simp only [shuffleRows, List.getElem_map, List.getElem_zip]
      rw [List.getD_eq_getElem _ 0 hk,
        List.getD_eq_getElem _ 0 (by omega : k <
          (sattolo rand ((getAllParticipants s).map (fun p => p.id))).length)]
      simp
    rw [hval]
    intro hcontra
    have := sattolo_getD_ne hr _ hnd (by omega) k hk
    simp only [Assignment.mk.injEq] at hcontra
    exact this (by simpa using hcontra.symm)

/-- Witness: C1 applied to a concrete three-participant roster with the
all-zero random oracle. -/
theorem c1_witness :
    (ValidRand rand0 ∧
      ((getAllParticipants threeRoster).map (fun p => p.id)).Nodup ∧
      shuffle rand0 threeRoster = .ok shuffled3) ∧
    (shuffled3.assignments.length = (getAllParticipants threeRoster).length ∧
      (∀ x ∈ (getAllParticipants threeRoster).map (fun p => p.id),
        (shuffled3.assignments.map (fun a => a.giverId)).count x = 1 ∧
        (shuffled3.assignments.map (fun a => a.receiverId)).count x = 1) ∧
      (∀ a ∈ shuffled3.assignments, a.giverId ≠ a.receiverId)) :=
  ⟨⟨fun _ hi => hi, by decide, by decide⟩,
    c1_shuffle_derangement rand0 threeRoster shuffled3 (fun _ hi => hi)
      (by decide) (by decide)⟩

end Claim1

section Claim2

variable {rand : Nat → Nat}

theorem sigmaAux_iterate_le_of_le (hr : ValidRand rand) (m k t : Nat)
    (hk : k ≤ m) : (sigmaAux rand m)^[t] k ≤ m := by
  induction t with
  | zero => exact hk
  | succ n ih =>
    rw [Function.iterate_succ_apply']
    exact sigmaAux_le hr m _ ih

theorem find?_zip_mk (xs ys : List Nat) (k : Nat) (hnd : xs.Nodup)
    (hk : k < xs.length) (hlen : xs.length = ys.length) :
    ((xs.zip ys).map (fun pr => Assignment.mk pr.1 pr.2)).find?
      (fun a => a.giverId == xs.getD k 0) =
      some ⟨xs.getD k 0, ys.getD k 0⟩ := by
  induction xs generalizing ys k with
  | nil => simp at hk
  | cons x xt ih =>
    cases ys with
    | nil => simp at hlen
    | cons y yt =>
      cases k with
      | zero => simp [List.find?]
      | succ k =>
        have hkt : k < xt.length := by simpa using hk
        have hmem : xt.getD k 0 ∈ xt := by
          rw [List.getD_eq_getElem _ 0 hkt]
          exact List.getElem_mem _
        have hx : x ≠ xt.getD k 0 := by
          intro he
          exact (List.nodup_cons.mp hnd).1 (he ▸ hmem)
        simp only [List.zip_cons_cons, List.map_cons, List.getD_cons_succ]
        rw [List.find?_cons_of_neg _ (by simpa using hx)]
        exact ih yt k (List.nodup_cons.mp hnd).2 hkt (by simpa using hlen)

/-- Looking up the assignment of the giver at roster position `k` returns
the receiver the loop put at position `k`. -/
theorem followAssign_shuffleRows {s : Storage} (hr : ValidRand rand)
    (hnd : ((getAllParticipants s).map (fun p => p.id)).Nodup)
    (k : Nat) (hk : k < ((getAllParticipants s).map (fun p => p.id)).length) :
    followAssign (shuffleRows rand s)
      (((getAllParticipants s).map (fun p => p.id)).getD k 0) =
      ((getAllParticipants s).map (fun p => p.id)).getD
        (sigmaAux rand
          (((getAllParticipants s).map (fun p => p.id)).length - 1) k) 0 := by
  rw [followAssign, shuffleRows,
    find?_zip_mk _ _ k hnd hk (length_sattolo rand _).symm]
  show (sattolo rand ((getAllParticipants s).map (fun p => p.id))).getD k 0 = _
  exact sattolo_getD hr _ k hk

theorem followAssign_iterate {s : Storage} (hr : ValidRand rand)
    (hnd : ((getAllParticipants s).map (fun p => p.id)).Nodup)
    (k t : Nat) (hk : k < ((getAllParticipants s).map (fun p => p.id)).length) :
    (followAssign (shuffleRows rand s))^[t]
      (((getAllParticipants s).map (fun p => p.id)).getD k 0) =
      ((getAllParticipants s).map (fun p => p.id)).getD
        ((sigmaAux rand
          (((getAllParticipants s).map (fun p => p.id)).length - 1))^[t] k) 0 := by
  induction t with
  | zero => rfl
  | succ n ih =>
    rw [Function.iterate_succ_apply', ih, Function.iterate_succ_apply']
    exact followAssign_shuffleRows hr hnd _
      (by
        have := sigmaAux_iterate_le_of_le hr
          (((getAllParticipants s).map (fun p => p.id)).length - 1) k n
          (by omega)
        omega)

/-- Claim C2: the giver→receiver mapping of a successful shuffle forms a
single cycle covering the whole roster — following assignments from any
giver reaches every roster member (so the identity mapping and any
multi-cycle derangement are impossible) — and for the concrete roster
`[1,2,3]` the only two possible assignment sets are the two 3-cycles. -/
theorem c2_single_cycle (rand : Nat → Nat) (s s' : Storage)
    (hr : ValidRand rand)
    (hnd : ((getAllParticipants s).map (fun p => p.id)).Nodup)
    (hok : shuffle rand s = .ok s') :
    (∀ g ∈ (getAllParticipants s).map (fun p => p.id),
     ∀ g' ∈ (getAllParticipants s).map (fun p => p.id),
      ∃ t, (followAssign s'.assignments)^[t] g = g') ∧
    ((getAllParticipants s).map (fun p => p.id) = [1, 2, 3] →
      s'.assignments = [⟨1, 2⟩, ⟨2, 3⟩, ⟨3, 1⟩] ∨
      s'.assignments = [⟨1, 3⟩, ⟨2, 1⟩, ⟨3, 2⟩]) := by
  obtain ⟨hc, hn, hw, rfl⟩ := shuffle_eq_ok hok
  have hlenids : ((getAllParticipants s).map (fun p => p.id)).length
      = (getAllParticipants s).length := List.length_map _ _
  constructor
  · intro g hg g' hg'
    obtain ⟨a, ha, hga⟩ := List.mem_iff_getElem.mp hg
    obtain ⟨b, hb, hgb⟩ := List.mem_iff_getElem.mp hg'
    obtain ⟨t, ht⟩ := sigmaAux_reach hr
      (((getAllParticipants s).map (fun p => p.id)).length - 1) a b
      (by omega) (by omega)
    refine ⟨t, ?_⟩
    have hga' : ((getAllParticipants s).map (fun p => p.id)).getD a 0 = g := by
      rw [List.getD_eq_getElem _ 0 ha]
      exact hga
    have hgb' : ((getAllParticipants s).map (fun p => p.id)).getD b 0 = g' := by
      rw [List.getD_eq_getElem _ 0 hb]
      exact hgb
    calc (followAssign (shuffleRows rand s))^[t] g
        = (followAssign (shuffleRows rand s))^[t]
            (((getAllParticipants s).map (fun p => p.id)).getD a 0) := by
          rw [hga']
      _ = ((getAllParticipants s).map (fun p => p.id)).getD
            ((sigmaAux rand
              (((getAllParticipants s).map (fun p => p.id)).length - 1))^[t] a) 0 :=
          followAssign_iterate hr hnd a t ha
      _ = g' := by rw [ht, hgb']
  · intro h123
    have hlen3 : ((getAllParticipants s).map (fun p => p.id)).length = 3 := by
      rw [h123]
      rfl
    have h1 : rand 1 = 0 := by
      have := hr 1 Nat.one_pos
      omega
    have h2 : rand 2 = 0 ∨ rand 2 = 1 := by
      have := hr 2 (by omega)
      omega
    rcases h2 with h2 | h2
    · left
      show shuffleRows rand s = _
      rw [shuffleRows, h123]
      have hsat : sattolo rand [1, 2, 3] = [2, 3, 1] := by
        simp [sattolo, sattoloAux, swapL, h1, h2]
      rw [hsat]
      rfl
    · right
      show shuffleRows rand s = _
      rw [shuffleRows, h123]
      have hsat : sattolo rand [1, 2, 3] = [3, 1, 2] := by
        simp [sattolo, sattoloAux, swapL, h1, h2]
      rw [hsat]
      rfl

/-- Witness: C2 applied to the concrete three-participant roster; the
all-zero oracle yields the first 3-cycle. -/
theorem c2_witness :
    (ValidRand rand0 ∧
      ((getAllParticipants threeRoster).map (fun p => p.id)).Nodup ∧
      shuffle rand0 threeRoster = .ok shuffled3) ∧
    ((∀ g ∈ (getAllParticipants threeRoster).map (fun p => p.id),
      ∀ g' ∈ (getAllParticipants threeRoster).map (fun p => p.id),
       ∃ t, (followAssign shuffled3.assignments)^[t] g = g') ∧
     ((getAllParticipants threeRoster).map (fun p => p.id) = [1, 2, 3] →
       shuffled3.assignments = [⟨1, 2⟩, ⟨2, 3⟩, ⟨3, 1⟩] ∨
       shuffled3.assignments = [⟨1, 3⟩, ⟨2, 1⟩, ⟨3, 2⟩])) :=
  ⟨⟨fun _ hi => hi, by decide, by decide⟩,
    c2_single_cycle rand0 threeRoster shuffled3 (fun _ hi => hi)
      (by decide) (by decide)⟩

end Claim2

section Claim3

/-- Claim C3: `shuffle()` fails with `InvalidStateError`, without changing
the assignment set or the app state, whenever any of its three preconditions
is violated (already shuffled, roster smaller than 3, or some participant
without a completed wishlist). -/
theorem c3_shuffle_preconditions (rand : Nat → Nat) (s : Storage)
    (hviol : s.appState.shuffleCompleted = true ∨
      (getAllParticipants s).length < 3 ∨
      (∃ p ∈ getAllParticipants s, p.wishlistCompleted = false)) :
    (∃ m, shuffle rand s = .error ⟨.invalidState, m⟩) ∧
    runExcept s (shuffle rand s) = s := by
  have herr : ∃ m, shuffle rand s = .error ⟨.invalidState, m⟩ := by
    by_cases h1 : s.appState.shuffleCompleted
    · exact ⟨"Shuffle has already been completed. Reset first to shuffle again.",
        by simp [shuffle, h1]⟩
    · by_cases h2 : (getAllParticipants s).length < 3
      · exact ⟨"Need at least 3 participants to shuffle",
          by simp [shuffle, h1, h2]⟩
      · rcases hviol with hv | hv | hv
        · simp [hv] at h1
        · omega
        · obtain ⟨p, hp, hpf⟩ := hv
          have h3 : (getAllParticipants s).all (fun p => p.wishlistCompleted)
              = false := by
            rcases Bool.eq_false_or_eq_true
                ((getAllParticipants s).all (fun p => p.wishlistCompleted)) with
              h | h
            · have := List.all_eq_true.mp h p hp
              rw [hpf] at this
              cases this
            · exact h
          exact ⟨"Not all participants have completed their wishlists",
            by simp [shuffle, h1, h2, h3]⟩
  refine ⟨herr, ?_⟩
  obtain ⟨m, hm⟩ := herr
  rw [hm]
  rfl

/-- Witness: C3 at the already-shuffled concrete state (second call without
an intervening reset). -/
theorem c3_witness :
    (shuffled3.appState.shuffleCompleted = true ∨
      (getAllParticipants shuffled3).length < 3 ∨
      (∃ p ∈ getAllParticipants shuffled3, p.wishlistCompleted = false)) ∧
    ((∃ m, shuffle rand0 shuffled3 = .error ⟨.invalidState, m⟩) ∧
      runExcept shuffled3 (shuffle rand0 shuffled3) = shuffled3) :=
  ⟨Or.inl rfl, c3_shuffle_preconditions rand0 shuffled3 (Or.inl rfl)⟩

end Claim3

section Claim4

theorem runDbOps_cons (s : Storage) (op : DbOp) (t : List DbOp) :
    runDbOps s (op :: t) = runDbOps (applyDbOp s op) t := rfl

theorem runDbOps_inserts (s : Storage) (ps : List (Nat × Nat)) :
    runDbOps s (ps.map (fun pr => DbOp.insertAssignment pr.1 pr.2)) =
      { s with assignments :=
          s.assignments ++ ps.map (fun pr => ⟨pr.1, pr.2⟩) } := by
  induction ps generalizing s with
  | nil => simp [runDbOps]
  | cons p pt ih =>
    rw [List.map_cons, runDbOps_cons, ih]
    simp [applyDbOp]

theorem runDbOps_append (s : Storage) (l1 l2 : List DbOp) :
    runDbOps s (l1 ++ l2) = runDbOps (runDbOps s l1) l2 :=
  List.foldl_append _ _ _ _

/-- Running the whole write sequence reproduces the successful shuffle's
final state. -/
theorem runDbOps_shufflePersist (rand : Nat → Nat) (s : Storage) :
    runDbOps s (shufflePersistOps rand s) =
      { s with assignments := shuffleRows rand s, appState := ⟨true⟩ } := by
  show runDbOps s (DbOp.delAllAssignments ::
      (((((getAllParticipants s).map (fun p => p.id)).zip
        (sattolo rand ((getAllParticipants s).map (fun p => p.id)))).map
        (fun pr => DbOp.insertAssignment pr.1 pr.2)) ++
        [DbOp.setCompleted true])) = _
  rw [runDbOps_cons, runDbOps_append, runDbOps_inserts]
  simp [applyDbOp, runDbOps, shuffleRows]

/-- Writes other than `setShuffleCompleted` never touch the app state. -/
theorem runDbOps_appState (s : Storage) (ops : List DbOp)
    (h : ∀ op ∈ ops, ∀ b, op ≠ DbOp.setCompleted b) :
    (runDbOps s ops).appState = s.appState := by
  induction ops generalizing s with
  | nil => rfl
  | cons op t ih =>
    rw [runDbOps_cons, ih _ (fun o ho b => h o (List.mem_cons_of_mem _ ho) b)]
    cases op with
    | delAllAssignments => rfl
    | insertAssignment g r => rfl
    | setCompleted b => exact absurd rfl (h _ (List.mem_cons_self _ _) b)

/-- Claim C4 (amended): the shuffle persistence is a sequence of separate
single-row writes, not one atomic batch; running the whole sequence yields
exactly the successful shuffle's state, and the `Shuffled` flag flips only
after the very last write (every proper prefix still shows `Open`), but an
execution cut anywhere before the end is observable (see the
counterexample for a partial assignment set). -/
theorem c4_persist_not_atomic (rand : Nat → Nat) (s : Storage)
    (hc : s.appState.shuffleCompleted = false)
    (hn : 3 ≤ (getAllParticipants s).length)
    (hw : ∀ p ∈ getAllParticipants s, p.wishlistCompleted = true) :
    shuffle rand s = .ok (runDbOps s (shufflePersistOps rand s)) ∧
    (∀ k, k < (shufflePersistOps rand s).length →
      (runDbOps s ((shufflePersistOps rand s).take k)).appState.shuffleCompleted
        = false) := by
  have hops : shufflePersistOps rand s =
      (DbOp.delAllAssignments ::
        ((((getAllParticipants s).map (fun p => p.id)).zip
          (sattolo rand ((getAllParticipants s).map (fun p => p.id)))).map
          (fun pr => DbOp.insertAssignment pr.1 pr.2))) ++
        [DbOp.setCompleted true] := by
    rw [shufflePersistOps]
    simp
  constructor
  · rw [shuffle_ok_of hc hn hw, runDbOps_shufflePersist]
  · intro k hk
    have hlen : k ≤ (DbOp.delAllAssignments ::
        ((((getAllParticipants s).map (fun p => p.id)).zip
          (sattolo rand ((getAllParticipants s).map (fun p => p.id)))).map
          (fun pr => DbOp.insertAssignment pr.1 pr.2))).length := by
      rw [hops] at hk
      simp at hk
      simp
      omega
    rw [hops, List.take_append_of_le_length hlen]
    have hpres := runDbOps_appState s
      ((DbOp.delAllAssignments ::
        ((((getAllParticipants s).map (fun p => p.id)).zip
          (sattolo rand ((getAllParticipants s).map (fun p => p.id)))).map
          (fun pr => DbOp.insertAssignment pr.1 pr.2))).take k)
      (by
        intro op hop b
        have hop2 := List.take_subset _ _ hop
        rcases List.mem_cons.mp hop2 with rfl | hop3
        · intro hcontra
          cases hcontra
        · obtain ⟨pr, -, hpr⟩ := List.mem_map.mp hop3
          rw [← hpr]
          intro hcontra
          cases hcontra)
    rw [hpres, hc]

/-- Counterexample to C4 as stated: cutting the shuffle's write sequence
after its first two primitive writes (the delete plus a single insert)
exposes a state holding exactly 1 of the 3 assignment rows — a partial
assignment set, neither the prior set (empty) nor the full new set — so the
delete-then-insert loop is not one all-or-nothing batch. -/
theorem c4_counterexample :
    (runDbOps threeRoster
      ((shufflePersistOps rand0 threeRoster).take 2)).assignments.length = 1 ∧
    threeRoster.assignments = [] ∧
    (getAllParticipants threeRoster).length = 3 ∧
    (runDbOps threeRoster
      ((shufflePersistOps rand0 threeRoster).take 2)).assignments ≠
      threeRoster.assignments ∧
    (runDbOps threeRoster
      ((shufflePersistOps rand0 threeRoster).take 2)).assignments ≠
      (runDbOps threeRoster (shufflePersistOps rand0 threeRoster)).assignments := by
  decide

/-- Witness: the amended C4 at the concrete three-participant roster. -/
theorem c4_witness :
    shuffle rand0 threeRoster =
      .ok (runDbOps threeRoster (shufflePersistOps rand0 threeRoster)) ∧
    (∀ k, k < (shufflePersistOps rand0 threeRoster).length →
      (runDbOps threeRoster
        ((shufflePersistOps rand0 threeRoster).take k)).appState.shuffleCompleted
        = false) :=
  c4_persist_not_atomic rand0 threeRoster rfl (by decide) (by decide)

end Claim4

section Claim5

theorem shuffleRows_length (rand : Nat → Nat) (s : Storage) :
    (shuffleRows rand s).length = (getAllParticipants s).length := by
  simp [shuffleRows, List.length_zip, length_sattolo]

theorem createParticipant_eq_ok {s : Storage} {newId : Nat} {u p : String}
    {s' : Storage} (h : createParticipant s newId u p = .ok s') :
    s.appState.shuffleCompleted = false ∧
    s' = { s with users := s.users ++ [⟨newId, u, p, "participant", false⟩] } := by
  by_cases h1 : u.length < 3
  · simp [createParticipant, h1] at h
  · by_cases h2 : p.length < 4
    · simp [createParticipant, h1, h2] at h
    · by_cases h3 : (getUserByUsername s u).isSome
      · simp [createParticipant, h1, h2, h3] at h
      · by_cases h4 : s.appState.shuffleCompleted
        · simp [createParticipant, h1, h2, h3, h4] at h
        · refine ⟨by simpa using h4, ?_⟩
          simp [createParticipant, h1, h2, h3, h4] at h
          exact h.symm

theorem deleteParticipant_eq_ok {s : Storage} {rid id : Nat} {s' : Storage}
    (h : deleteParticipant s rid id = .ok s') :
    s.appState.shuffleCompleted = false ∧ s' = removeUserCascade s id := by
  by_cases h1 : s.appState.shuffleCompleted
  · simp [deleteParticipant, h1] at h
  · refine ⟨by simpa using h1, ?_⟩
    by_cases h2 : id == rid
    · simp [deleteParticipant, h1, h2] at h
    · rw [deleteParticipant, if_neg (by simpa using h1), if_neg (by simpa using h2)]
        at h
      rw [deleteUserStorage] at h
      rcases hfind : getUser s id with - | u
      · rw [hfind] at h
        simpa using h.symm
      · rw [hfind] at h
        by_cases hrole : u.role == "admin"
        · simp [hrole] at h
        · simp [hrole] at h
          exact h.symm

theorem saveWishlist_eq_ok {s : Storage} {uid : Nat}
    {i1 i2 i3 : Option String} {s' : Storage}
    (h : saveWishlist s uid i1 i2 i3 = .ok s') :
    s' = updateUserWishlistStatus
      (createOrUpdateWishlist s uid (optOfStr (trimOpt i1))
        (optOfStr (trimOpt i2)) (optOfStr (trimOpt i3))) uid true := by
  simp only [saveWishlist] at h
  split_ifs at h with hcond
  exact (Except.ok.inj h).symm

theorem createOrUpdateWishlist_users (s : Storage) (uid : Nat)
    (i1 i2 i3 : Option String) :
    (createOrUpdateWishlist s uid i1 i2 i3).users = s.users ∧
    (createOrUpdateWishlist s uid i1 i2 i3).assignments = s.assignments ∧
    (createOrUpdateWishlist s uid i1 i2 i3).appState = s.appState := by
  rw [createOrUpdateWishlist]
  split <;> exact ⟨rfl, rfl, rfl⟩

theorem roster_length_update (s : Storage) (id : Nat) (b : Bool) :
    (getAllParticipants (updateUserWishlistStatus s id b)).length
      = (getAllParticipants s).length := by
  rw [getAllParticipants, updateUserWishlistStatus]
  show (List.filter _ (s.users.map _)).length = _
  rw [List.filter_map, List.length_map]
  congr 1
  apply List.filter_congr
  intro u _
  by_cases h : u.id == id <;> simp [Function.comp, h]

theorem step_strongInv {s s' : Storage} (hs : StrongInv s) (h : Step s s') :
    StrongInv s' := by
  cases h with
  | create newId u p hfresh hok =>
    obtain ⟨hc, rfl⟩ := createParticipant_eq_ok hok
    exact ⟨fun _ => hs.1 hc, fun htrue => by simp [hc] at htrue⟩
  | delete rid id hok =>
    obtain ⟨hc, rfl⟩ := deleteParticipant_eq_ok hok
    have hempty := hs.1 hc
    refine ⟨fun _ => ?_, fun htrue => ?_⟩
    · simp [removeUserCascade, hempty]
    · simp [removeUserCascade, hc] at htrue
  | save uid i1 i2 i3 hok =>
    have hval := saveWishlist_eq_ok hok
    obtain ⟨hu, ha, hst⟩ := createOrUpdateWishlist_users s uid
      (optOfStr (trimOpt i1)) (optOfStr (trimOpt i2)) (optOfStr (trimOpt i3))
    subst hval
    constructor
    · intro hc
      have : s.appState.shuffleCompleted = false := by
        simpa [updateUserWishlistStatus, hst] using hc
      have := hs.1 this
      simpa [updateUserWishlistStatus, ha] using this
    · intro hc
      have hc' : s.appState.shuffleCompleted = true := by
        simpa [updateUserWishlistStatus, hst] using hc
      obtain ⟨hne, hlen⟩ := hs.2 hc'
      refine ⟨by simpa [updateUserWishlistStatus, ha] using hne, ?_⟩
      rw [roster_length_update]
      have hroster : (getAllParticipants (createOrUpdateWishlist s uid
          (optOfStr (trimOpt i1)) (optOfStr (trimOpt i2))
          (optOfStr (trimOpt i3)))).length = (getAllParticipants s).length := by
        rw [getAllParticipants, hu, ← getAllParticipants]
      rw [hroster]
      simpa [updateUserWishlistStatus, ha] using hlen
  | doShuffle rand hr hok =>
    obtain ⟨hc, hn, hw, rfl⟩ := shuffle_eq_ok hok
    refine ⟨fun hfalse => by simp at hfalse, fun _ => ⟨?_, ?_⟩⟩
    · intro hnil
      have hnil2 : shuffleRows rand s = [] := hnil
      have hlen := shuffleRows_length rand s
      rw [hnil2] at hlen
      simp at hlen
      omega
    · show (shuffleRows rand s).length = _
      rw [shuffleRows_length rand s]
      rfl
  | doReset =>
    exact ⟨fun _ => rfl, fun htrue => by simp [reset] at htrue⟩

/-- Claim C5: in every reachable state, `shuffleCompleted = true` holds iff
the assignment set is non-empty and its size equals the non-admin roster
size; every operation (`createParticipant`, `deleteParticipant`,
`saveWishlist`, `shuffle`, `reset`) preserves this invariant along the
transition system. -/
theorem c5_state_invariant (s : Storage) (h : Reachable s) : Inv s := by
  have hstrong : StrongInv s := by
    induction h with
    | refl => exact ⟨fun _ => rfl, fun htrue => by simp [initState] at htrue⟩
    | tail _ hstep ih => exact step_strongInv ih hstep
  constructor
  · exact hstrong.2
  · rintro ⟨hne, -⟩
    by_contra hnot
    have hfalse : s.appState.shuffleCompleted = false := by
      revert hnot
      cases s.appState.shuffleCompleted <;> simp
    exact hne (hstrong.1 hfalse)

/-- Witness: C5 at the seeded initial state (trivially reachable). -/
theorem c5_witness : Inv initState :=
  c5_state_invariant initState Relation.ReflTransGen.refl

end Claim5

section Claim6

/-- Claim C6: `reset()` always succeeds: it empties the assignment set and
clears the flag, touches nothing else, is idempotent (a second reset, or a
reset of an already-`Open` state with no assignments, is a no-op), and a
subsequent `shuffle()` under valid preconditions succeeds again. -/
theorem c6_reset_roundtrip (rand : Nat → Nat) (s : Storage) :
    (reset s).assignments = [] ∧
    (reset s).appState.shuffleCompleted = false ∧
    (reset s).users = s.users ∧
    (reset s).wishlists = s.wishlists ∧
    reset (reset s) = reset s ∧
    (s.appState.shuffleCompleted = false → s.assignments = [] → reset s = s) ∧
    (3 ≤ (getAllParticipants (reset s)).length →
      (∀ p ∈ getAllParticipants (reset s), p.wishlistCompleted = true) →
      ∃ s', shuffle rand (reset s) = .ok s') := by
  refine ⟨rfl, rfl, rfl, rfl, rfl, ?_, ?_⟩
  · intro hc ha
    cases s with
    | mk us ws as st =>
      cases st with
      | mk c =>
        have hc' : c = false := hc
        have ha' : as = [] := ha
        rw [reset, hc', ha']
  · intro hn hw
    exact ⟨_, shuffle_ok_of rfl hn hw⟩

/-- Witness: C6 at the concrete shuffled state with the all-zero oracle. -/
theorem c6_witness :
    ((reset shuffled3).assignments = [] ∧
     (reset shuffled3).appState.shuffleCompleted = false ∧
     (reset shuffled3).users = shuffled3.users ∧
     (reset shuffled3).wishlists = shuffled3.wishlists ∧
     reset (reset shuffled3) = reset shuffled3 ∧
     (shuffled3.appState.shuffleCompleted = false →
       shuffled3.assignments = [] → reset shuffled3 = shuffled3) ∧
     (3 ≤ (getAllParticipants (reset shuffled3)).length →
       (∀ p ∈ getAllParticipants (reset shuffled3), p.wishlistCompleted = true) →
       ∃ s', shuffle rand0 (reset shuffled3) = .ok s')) :=
  c6_reset_roundtrip rand0 shuffled3

end Claim6

section Claim7

/-- Counterexample to C7 as stated: in the `Shuffled` state, a
`createParticipant` call with a duplicate username fails with
`ConflictError`, not `InvalidStateError` — the duplicate-username check runs
before the frozen-roster check in the handler. -/
theorem c7_counterexample :
    shuffled3.appState.shuffleCompleted = true ∧
    createParticipant shuffled3 9 "alice" "password" =
      .error ⟨.conflict, "Username already exists"⟩ ∧
    ErrKind.conflict ≠ ErrKind.invalidState := by
  decide

/-- Claim C7 (amended): while the state is `Shuffled`, the roster never
changes: every `deleteParticipant` call fails with `InvalidStateError` and
every `createParticipant` call fails — with `InvalidStateError` whenever the
inputs are well-formed and the username fresh, while malformed inputs fail
`ValidationError` and duplicate usernames `ConflictError` (those checks run
first) — and in every case the state is left unchanged. -/
theorem c7_roster_frozen (s : Storage)
    (hc : s.appState.shuffleCompleted = true) :
    (∀ rid id, deleteParticipant s rid id =
        .error ⟨.invalidState,
          "Cannot delete participants after shuffle. Reset first."⟩ ∧
      runExcept s (deleteParticipant s rid id) = s) ∧
    (∀ newId u p, (∃ e, createParticipant s newId u p = .error e) ∧
      runExcept s (createParticipant s newId u p) = s) ∧
    (∀ newId u p, 3 ≤ u.length → 4 ≤ p.length →
      getUserByUsername s u = none →
      createParticipant s newId u p =
        .error ⟨.invalidState,
          "Cannot add participants after shuffle. Reset first."⟩) := by
  refine ⟨?_, ?_, ?_⟩
  · intro rid id
    have he : deleteParticipant s rid id =
        .error ⟨.invalidState,
          "Cannot delete participants after shuffle. Reset first."⟩ := by
      simp [deleteParticipant, hc]
    exact ⟨he, by rw [he]; rfl⟩
  · intro newId u p
    have herr : ∃ e, createParticipant s newId u p = .error e := by
      by_cases h1 : u.length < 3
      · exact ⟨⟨.validation, "Username must be at least 3 characters"⟩,
          by simp [createParticipant, h1]⟩
      · by_cases h2 : p.length < 4
        · exact ⟨⟨.validation, "Password must be at least 4 characters"⟩,
            by simp [createParticipant, h1, h2]⟩
        · by_cases h3 : (getUserByUsername s u).isSome
          · exact ⟨⟨.conflict, "Username already exists"⟩,
              by simp [createParticipant, h1, h2, h3]⟩
          · exact ⟨⟨.invalidState,
                "Cannot add participants after shuffle. Reset first."⟩,
              by simp [createParticipant, h1, h2, h3, hc]⟩
    refine ⟨herr, ?_⟩
    obtain ⟨e, he⟩ := herr
    rw [he]
    rfl
  · intro newId u p hu hp hfree
    rw [createParticipant, if_neg (by omega), if_neg (by omega),
      if_neg (by simp [hfree]), if_pos hc]

/-- Witness: the amended C7 at the concrete shuffled state. -/
theorem c7_witness :
    shuffled3.appState.shuffleCompleted = true ∧
    ((∀ rid id, deleteParticipant shuffled3 rid id =
        .error ⟨.invalidState,
          "Cannot delete participants after shuffle. Reset first."⟩ ∧
      runExcept shuffled3 (deleteParticipant shuffled3 rid id) = shuffled3) ∧
    (∀ newId u p, (∃ e, createParticipant shuffled3 newId u p = .error e) ∧
      runExcept shuffled3 (createParticipant shuffled3 newId u p) = shuffled3) ∧
    (∀ newId u p, 3 ≤ u.length → 4 ≤ p.length →
      getUserByUsername shuffled3 u = none →
      createParticipant shuffled3 newId u p =
        .error ⟨.invalidState,
          "Cannot add participants after shuffle. Reset first."⟩)) :=
  ⟨rfl, c7_roster_frozen shuffled3 rfl⟩

end Claim7

section Claim8

theorem map_id_of_mem {α : Type} (l : List α) (f : α → α)
    (h : ∀ x ∈ l, f x = x) : l.map f = l :=
  (List.map_congr_left h).trans (List.map_id l)

theorem mergeCol_idem (o x : Option String) :
    mergeCol o (mergeCol o x) = mergeCol o x := by
  cases o <;> rfl

theorem mergeCol_self (o : Option String) : mergeCol o o = o := by
  cases o <;> rfl

/-- A successful call that did not error kept at least one non-empty item. -/
theorem saveWishlist_ok_cond {s : Storage} {uid : Nat}
    {i1 i2 i3 : Option String} {s' : Storage}
    (h : saveWishlist s uid i1 i2 i3 = .ok s') :
    ¬(trimOpt i1 = "" ∧ trimOpt i2 = "" ∧ trimOpt i3 = "") := by
  simp only [saveWishlist] at h
  split_ifs at h with hcond
  simpa using hcond

/-- `find?` commutes with a map that leaves the predicate invariant. -/
theorem find?_map_of_pred {α : Type} (l : List α) (f : α → α) (p : α → Bool)
    (h : ∀ w, p (f w) = p w) : (l.map f).find? p = (l.find? p).map f := by
  induction l with
  | nil => rfl
  | cons a t ih =>
    by_cases ha : p a = true
    · rw [List.map_cons, List.find?_cons_of_pos _ (by rw [h a]; exact ha),
        List.find?_cons_of_pos _ ha]
      rfl
    · rw [List.map_cons, List.find?_cons_of_neg _ (by rw [h a]; simpa using ha),
        List.find?_cons_of_neg _ (by simpa using ha), ih]

/-- After the upsert, every wishlist row of the owner is a per-field merge
of the new items over some old column values, and one such row exists. -/
theorem createOrUpdate_rows (s : Storage) (uid : Nat)
    (o1 o2 o3 : Option String) :
    (∀ w ∈ (createOrUpdateWishlist s uid o1 o2 o3).wishlists,
      w.userId = uid →
      ∃ x y z, w = ⟨uid, mergeCol o1 x, mergeCol o2 y, mergeCol o3 z⟩) ∧
    (∃ w ∈ (createOrUpdateWishlist s uid o1 o2 o3).wishlists,
      w.userId = uid) := by
  by_cases hfind : (s.wishlists.find? (fun w => w.userId == uid)).isSome
  · rw [createOrUpdateWishlist, if_pos hfind]
    constructor
    · intro w hw hwid
      obtain ⟨w0, hw0, hw0eq⟩ := List.mem_map.mp hw
      by_cases h0 : w0.userId == uid
      · rw [if_pos h0] at hw0eq
        exact ⟨w0.item1, w0.item2, w0.item3, hw0eq.symm⟩
      · rw [if_neg h0] at hw0eq
        rw [← hw0eq] at hwid
        simp [hwid] at h0
    · obtain ⟨w0, hw0⟩ := Option.isSome_iff_exists.mp hfind
      have hw0mem : w0 ∈ s.wishlists := List.mem_of_find?_eq_some hw0
      have hw0id0 := List.find?_some hw0
      have hw0id : (w0.userId == uid) = true := hw0id0
      exact ⟨⟨uid, mergeCol o1 w0.item1, mergeCol o2 w0.item2,
          mergeCol o3 w0.item3⟩,
        List.mem_map.mpr ⟨w0, hw0mem, by rw [if_pos hw0id]⟩, rfl⟩
  · rw [createOrUpdateWishlist, if_neg hfind]
    constructor
    · intro w hw hwid
      rcases List.mem_append.mp hw with hmem | hmem
      · have hnone : s.wishlists.find? (fun w => w.userId == uid) = none :=
          Option.not_isSome_iff_eq_none.mp hfind
        have := List.find?_eq_none.mp hnone w hmem
        simp [hwid] at this
      · have hw2 : w = ⟨uid, o1, o2, o3⟩ := by simpa using hmem
        exact ⟨o1, o2, o3, by rw [hw2, mergeCol_self, mergeCol_self, mergeCol_self]⟩
    · exact ⟨⟨uid, o1, o2, o3⟩, List.mem_append.mpr (Or.inr (by simp)), rfl⟩

/-- After marking, every user row with the owner's id has the flag set. -/
theorem updateUserWishlistStatus_flag (x : Storage) (uid : Nat) :
    ∀ u ∈ (updateUserWishlistStatus x uid true).users,
      u.id = uid → u.wishlistCompleted = true := by
  intro u hu hid
  obtain ⟨u0, hu0, hequ⟩ := List.mem_map.mp hu
  by_cases h0 : u0.id == uid
  · rw [if_pos h0] at hequ
    rw [← hequ]
  · rw [if_neg h0] at hequ
    rw [← hequ] at hid
    simp [hid] at h0

/-- Counterexample to C8 as stated: participant 1 has all three items
stored; resaving only `item1 = "x"` keeps the old `item2`/`item3` (the
update's SET clause omits the undefined columns), so the stored entry is a
per-field merge, not a wholesale replacement, and `item2`/`item3` are not
left empty. -/
theorem c8_counterexample :
    saveWishlist c8Three 1 (some "x") none none = .ok c8Merged ∧
    getWishlistByUserId c8Three 1 = some ⟨1, some "a", some "b", some "c"⟩ ∧
    getWishlistByUserId c8Merged 1 = some ⟨1, some "x", some "b", some "c"⟩ ∧
    (∀ w ∈ c8Merged.wishlists, w.userId = 1 →
      w.item2 ≠ none ∧ w.item3 ≠ none) := by
  decide

/-- Claim C8 (amended): `saveWishlist` upserts per-field, not wholesale:
omitted or empty items reach the update as `undefined` and are skipped, so
a later call with only `item1` keeps the previously stored `item2`/`item3`
(merge, not replace), while a fresh insert stores exactly the provided
items; every successful call sets the owner's `wishlistCompleted` flag even
on resubmission; and repeating the very same call returns the very same
state (idempotence — in particular a resubmission of the same three items
leaves the stored entry unchanged). -/
theorem c8_upsert_merge (s : Storage) (uid : Nat)
    (i1 i2 i3 : Option String) (s' : Storage)
    (hok : saveWishlist s uid i1 i2 i3 = .ok s') :
    saveWishlist s' uid i1 i2 i3 = .ok s' ∧
    (∀ u ∈ s'.users, u.id = uid → u.wishlistCompleted = true) ∧
    (getWishlistByUserId s uid = none →
      getWishlistByUserId s' uid = some ⟨uid, optOfStr (trimOpt i1),
        optOfStr (trimOpt i2), optOfStr (trimOpt i3)⟩) ∧
    (∀ w0, getWishlistByUserId s uid = some w0 →
      getWishlistByUserId s' uid = some ⟨uid,
        mergeCol (optOfStr (trimOpt i1)) w0.item1,
        mergeCol (optOfStr (trimOpt i2)) w0.item2,
        mergeCol (optOfStr (trimOpt i3)) w0.item3⟩) := by
  have hcond := saveWishlist_ok_cond hok
  have hval := saveWishlist_eq_ok hok
  have hwl : s'.wishlists = (createOrUpdateWishlist s uid
      (optOfStr (trimOpt i1)) (optOfStr (trimOpt i2))
      (optOfStr (trimOpt i3))).wishlists := by
    rw [hval]
    rfl
  have hrows := createOrUpdate_rows s uid (optOfStr (trimOpt i1))
    (optOfStr (trimOpt i2)) (optOfStr (trimOpt i3))
  have hall : ∀ w ∈ s'.wishlists, w.userId = uid →
      ∃ x y z, w = ⟨uid, mergeCol (optOfStr (trimOpt i1)) x,
        mergeCol (optOfStr (trimOpt i2)) y,
        mergeCol (optOfStr (trimOpt i3)) z⟩ := by
    rw [hwl]
    exact hrows.1
  have hex : ∃ w ∈ s'.wishlists, w.userId = uid := by
    rw [hwl]
    exact hrows.2
  have hflag : ∀ u ∈ s'.users, u.id = uid → u.wishlistCompleted = true := by
    rw [hval]
    exact updateUserWishlistStatus_flag _ uid
  refine ⟨?_, hflag, ?_, ?_⟩
  · -- idempotence: the second identical call merges every row into itself
    have hfind2 : (s'.wishlists.find? (fun w => w.userId == uid)).isSome := by
      obtain ⟨w, hw, hwid⟩ := hex
      exact List.find?_isSome.mpr ⟨w, hw, by simp [hwid]⟩
    have hcou2 : createOrUpdateWishlist s' uid (optOfStr (trimOpt i1))
        (optOfStr (trimOpt i2)) (optOfStr (trimOpt i3)) = s' := by
      rw [createOrUpdateWishlist, if_pos hfind2]
      have hmapid : s'.wishlists.map (fun w =>
          if w.userId == uid then
            (⟨uid, mergeCol (optOfStr (trimOpt i1)) w.item1,
              mergeCol (optOfStr (trimOpt i2)) w.item2,
              mergeCol (optOfStr (trimOpt i3)) w.item3⟩ : Wishlist)
          else w) = s'.wishlists := by
        apply map_id_of_mem
        intro w hw
        by_cases h0 : w.userId == uid
        · rw [if_pos h0]
          obtain ⟨x, y, z, hxyz⟩ := hall w hw (by simpa using h0)
          rw [hxyz]
          simp only [mergeCol_idem]
        · rw [if_neg h0]
      rw [hmapid]
    have hupd2 : updateUserWishlistStatus s' uid true = s' := by
      rw [updateUserWishlistStatus]
      have hmapid : s'.users.map (fun u =>
          if u.id == uid then { u with wishlistCompleted := true } else u)
          = s'.users := by
        apply map_id_of_mem
        intro u hu
        by_cases h0 : u.id == uid
        · rw [if_pos h0]
          have := hflag u hu (by simpa using h0)
          cases u with
          | mk a b c d e =>
            have he : e = true := this
            rw [he]
        · rw [if_neg h0]
      rw [hmapid]
    simp only [saveWishlist]
    rw [if_neg (by
      intro hc
      apply hcond
      simp only [Bool.and_eq_true, decide_eq_true_eq] at hc
      exact ⟨hc.1.1, hc.1.2, hc.2⟩)]
    rw [hcou2, hupd2]
  · -- fresh insert: the new row is appended and found first among uid rows
    intro hnone
    have hnone2 : s.wishlists.find? (fun w => w.userId == uid) = none := hnone
    rw [getWishlistByUserId, hwl, createOrUpdateWishlist,
      if_neg (by rw [hnone2]; simp), List.find?_append, hnone2]
    simp
  · -- update: the first stored row is the per-field merge of the old one
    intro w0 hw0
    have hw0f : s.wishlists.find? (fun w => w.userId == uid) = some w0 := hw0
    have hw0id0 := List.find?_some hw0f
    have hw0id : (w0.userId == uid) = true := hw0id0
    rw [getWishlistByUserId, hwl, createOrUpdateWishlist,
      if_pos (by rw [hw0f]; rfl)]
    rw [find?_map_of_pred _ _ _ (by
      intro w
      by_cases h0 : w.userId == uid
      · rw [if_pos h0]
        simp only at h0 ⊢
        rw [show ((⟨uid, mergeCol (optOfStr (trimOpt i1)) w.item1,
            mergeCol (optOfStr (trimOpt i2)) w.item2,
            mergeCol (optOfStr (trimOpt i3)) w.item3⟩ : Wishlist).userId == uid)
          = true from by simp]
        rw [h0]
      · rw [if_neg h0])]
    rw [hw0f]
    have huid : w0.userId = uid := by simpa using hw0id
    simp [huid]

/-- Witness: the amended C8 at the concrete roster where participant 1
resaves only `item1` over a previously stored three-item entry. -/
theorem c8_witness :
    saveWishlist c8Three 1 (some "x") none none = .ok c8Merged ∧
    (saveWishlist c8Merged 1 (some "x") none none = .ok c8Merged ∧
      (∀ u ∈ c8Merged.users, u.id = 1 → u.wishlistCompleted = true) ∧
      (getWishlistByUserId c8Three 1 = none →
        getWishlistByUserId c8Merged 1 = some ⟨1, optOfStr (trimOpt (some "x")),
          optOfStr (trimOpt none), optOfStr (trimOpt none)⟩) ∧
      (∀ w0, getWishlistByUserId c8Three 1 = some w0 →
        getWishlistByUserId c8Merged 1 = some ⟨1,
          mergeCol (optOfStr (trimOpt (some "x"))) w0.item1,
          mergeCol (optOfStr (trimOpt none)) w0.item2,
          mergeCol (optOfStr (trimOpt none)) w0.item3⟩)) :=
  ⟨by decide,
    c8_upsert_merge c8Three 1 (some "x") none none c8Merged (by decide)⟩

end Claim8

section Claim9

/-- Claim C9: `saveWishlist` trims all three inputs and fails with
`ValidationError`, storing nothing and leaving the state (hence every
`wishlistCompleted` flag) unchanged, whenever all three items are missing,
empty, or whitespace-only — i.e. empty after trimming. -/
theorem c9_empty_wishlist_rejected (s : Storage) (uid : Nat)
    (i1 i2 i3 : Option String)
    (h1 : trimOpt i1 = "") (h2 : trimOpt i2 = "") (h3 : trimOpt i3 = "") :
    saveWishlist s uid i1 i2 i3 =
      .error ⟨.validation, "At least one wishlist item is required"⟩ ∧
    runExcept s (saveWishlist s uid i1 i2 i3) = s := by
  have he : saveWishlist s uid i1 i2 i3 =
      .error ⟨.validation, "At least one wishlist item is required"⟩ := by
    simp only [saveWishlist]
    rw [if_pos (by simp [h1, h2, h3])]
  exact ⟨he, by rw [he]; rfl⟩

/-- Witness: C9 with one missing item, one whitespace-only item, and one
empty item. -/
theorem c9_witness :
    (trimOpt (none : Option String) = "" ∧ trimOpt (some "   ") = "" ∧
      trimOpt (some "") = "") ∧
    (saveWishlist threeRoster 5 none (some "   ") (some "") =
      .error ⟨.validation, "At least one wishlist item is required"⟩ ∧
    runExcept threeRoster
      (saveWishlist threeRoster 5 none (some "   ") (some "")) = threeRoster) :=
  ⟨⟨by decide, by decide, by decide⟩,
    c9_empty_wishlist_rejected threeRoster 5 none (some "   ") (some "")
      (by decide) (by decide) (by decide)⟩

end Claim9

section Claim10

theorem find?_id_eq {l : List User} {u : User} {id : Nat}
    (hmem : u ∈ l) (hid : u.id = id)
    (hnd : (l.map (fun x => x.id)).Nodup) :
    l.find? (fun x => x.id == id) = some u := by
  induction l with
  | nil => cases hmem
  | cons a t ih =>
    have hnd2 : (a.id :: t.map (fun x => x.id)).Nodup := by
      rw [← List.map_cons]
      exact hnd
    rcases List.mem_cons.mp hmem with rfl | hmem2
    · rw [List.find?_cons_of_pos _ (by simp [hid])]
    · have hane : a.id ≠ id := by
        intro he
        have humem : u.id ∈ t.map (fun x => x.id) :=
          List.mem_map.mpr ⟨u, hmem2, rfl⟩
        rw [hid, ← he] at humem
        exact (List.nodup_cons.mp hnd2).1 humem
      rw [List.find?_cons_of_neg _ (by simp [hane])]
      exact ih hmem2 (List.nodup_cons.mp hnd2).2

/-- Counterexample to C10 as stated: in the `Shuffled` state, deleting the
admin fails with `InvalidStateError` (the frozen-roster check fires first),
not `ValidationError`; the admin is still not deleted. -/
theorem c10_counterexample :
    (∃ u ∈ shuffled3.users, u.id = 100 ∧ u.role = "admin") ∧
    deleteParticipant shuffled3 100 100 =
      .error ⟨.invalidState,
        "Cannot delete participants after shuffle. Reset first."⟩ ∧
    ErrKind.invalidState ≠ ErrKind.validation ∧
    runExcept shuffled3 (deleteParticipant shuffled3 100 100) = shuffled3 := by
  decide

/-- Claim C10 (amended): a delete call whose target id refers to the admin
participant always fails and leaves the state unchanged — the admin is never
deletable in any state — but the error kind depends on the path: it is
`ValidationError` ("Cannot delete yourself") exactly in the `Open` state
when the admin targets their own id, `InvalidStateError` while `Shuffled`
(that check fires first), and the storage layer's generic internal error
when an admin-role row other than the requester is targeted while `Open`. -/
theorem c10_admin_not_deletable (s : Storage) (rid id : Nat)
    (hadmin : ∃ u ∈ s.users, u.id = id ∧ u.role = "admin")
    (hnd : (s.users.map (fun u => u.id)).Nodup) :
    (∃ e, deleteParticipant s rid id = .error e) ∧
    runExcept s (deleteParticipant s rid id) = s ∧
    (s.appState.shuffleCompleted = true →
      deleteParticipant s rid id =
        .error ⟨.invalidState,
          "Cannot delete participants after shuffle. Reset first."⟩) ∧
    (s.appState.shuffleCompleted = false → id = rid →
      deleteParticipant s rid id =
        .error ⟨.validation, "Cannot delete yourself"⟩) ∧
    (s.appState.shuffleCompleted = false → id ≠ rid →
      deleteParticipant s rid id =
        .error ⟨.internal, "Admin user cannot be deleted."⟩) := by
  obtain ⟨u, hmem, hid, hrole⟩ := hadmin
  have hfind : getUser s id = some u := find?_id_eq hmem hid hnd
  by_cases hc : s.appState.shuffleCompleted
  · have he : deleteParticipant s rid id =
        .error ⟨.invalidState,
          "Cannot delete participants after shuffle. Reset first."⟩ := by
      simp [deleteParticipant, hc]
    exact ⟨⟨_, he⟩, by rw [he]; rfl, fun _ => he,
      fun hfalse => by simp [hc] at hfalse,
      fun hfalse => by simp [hc] at hfalse⟩
  · by_cases hidr : id = rid
    · have he : deleteParticipant s rid id =
          .error ⟨.validation, "Cannot delete yourself"⟩ := by
        simp [deleteParticipant, hc, hidr]
      exact ⟨⟨_, he⟩, by rw [he]; rfl,
        fun htrue => absurd htrue (by simp [hc]),
        fun _ _ => he, fun _ hne => absurd hidr hne⟩
    · have he : deleteParticipant s rid id =
          .error ⟨.internal, "Admin user cannot be deleted."⟩ := by
        rw [deleteParticipant, if_neg (by simp [hc]),
          if_neg (by simp [hidr]), deleteUserStorage, hfind]
        simp [hrole]
      exact ⟨⟨_, he⟩, by rw [he]; rfl,
        fun htrue => absurd htrue (by simp [hc]),
        fun _ hid2 => absurd hid2 hidr, fun _ _ => he⟩

/-- Witness: the amended C10 in the `Open` state, the admin targeting their
own id. -/
theorem c10_witness :
    ((∃ u ∈ threeRoster.users, u.id = 100 ∧ u.role = "admin") ∧
      (threeRoster.users.map (fun u => u.id)).Nodup) ∧
    ((∃ e, deleteParticipant threeRoster 100 100 = .error e) ∧
    runExcept threeRoster (deleteParticipant threeRoster 100 100) = threeRoster ∧
    (threeRoster.appState.shuffleCompleted = true →
      deleteParticipant threeRoster 100 100 =
        .error ⟨.invalidState,
          "Cannot delete participants after shuffle. Reset first."⟩) ∧
    (threeRoster.appState.shuffleCompleted = false → (100 : Nat) = 100 →
      deleteParticipant threeRoster 100 100 =
        .error ⟨.validation, "Cannot delete yourself"⟩) ∧
    (threeRoster.appState.shuffleCompleted = false → (100 : Nat) ≠ 100 →
      deleteParticipant threeRoster 100 100 =
        .error ⟨.internal, "Admin user cannot be deleted."⟩)) :=
  ⟨⟨by decide, by decide⟩,
    c10_admin_not_deletable threeRoster 100 100 (by decide) (by decide)⟩

end Claim10

end SecretSantaOrg
